import Mathlib

/-!
Verification development for the bna-market ingestion and reconciliation
pipeline.  Each definition is a shallow embedding of one function of the
repository (the Python file and the lines it comes from are named in its
doc comment); the theorems settle the specification claims about those
functions.
-/

namespace BnaMarket

/-! ## Retrying Fetcher

Shallow embedding of `retry_with_backoff` in
`src/bna_market/utils/retry.py` (lines 43-61).  A unit of work is modelled
as a function from the attempt index (0-based) to an `Except` outcome:
`.ok v` is a normal return, `.error e` is a raised exception.  `retryOn`
models membership of an exception in the `retry_on` tuple.  The Python
loop `for attempt in range(max_retries + 1)` tries attempts `0 ..
maxRetries`; on a retryable failure at `attempt == max_retries` it
re-raises, on a retryable failure earlier it sleeps and continues, and on
a non-retryable failure the exception propagates at once (the `except`
clause does not match).  The sleep is timing behaviour and is not
modelled.  The result pairs the final outcome with the total number of
calls made to the unit of work.
-/

/-- One pass of the retry loop starting at attempt index `attempt`.
Mirrors the body of the `for` loop in `retry_with_backoff`: the Python
exhaustion test `attempt == max_retries` is reached only with
`attempt ≤ max_retries`, where it coincides with `maxRetries ≤ attempt`
used here for termination. -/
def retryFrom (work : Nat → Except E V) (retryOn : E → Bool)
    (maxRetries : Nat) (attempt : Nat) : Except E V × Nat :=
  match work attempt with
  | Except.ok v => (Except.ok v, attempt + 1)
  | Except.error e =>
    if retryOn e then
      if maxRetries ≤ attempt then (Except.error e, attempt + 1)
      else retryFrom work retryOn maxRetries (attempt + 1)
    else (Except.error e, attempt + 1)
termination_by maxRetries - attempt

/-- Embeds `retry_with_backoff(max_retries=maxRetries, retry_on=retryOn)` applied
to `work`, called once: attempts start at index 0. -/
def retry_with_backoff (work : Nat → Except E V) (retryOn : E → Bool)
    (maxRetries : Nat) : Except E V × Nat :=
  retryFrom work retryOn maxRetries 0

lemma retryFrom_ok (work : Nat → Except E V) (retryOn : E → Bool)
    (maxRetries : Nat) (k : Nat) (v : V)
    (hk : k ≤ maxRetries)
    (hfail : ∀ i, i < k → ∃ e, work i = Except.error e ∧ retryOn e = true)
    (hok : work k = Except.ok v) :
    ∀ a, a ≤ k → retryFrom work retryOn maxRetries a = (Except.ok v, k + 1) := by
  suffices H : ∀ n a, a ≤ k → k - a = n →
      retryFrom work retryOn maxRetries a = (Except.ok v, k + 1) by
    exact fun a ha => H (k - a) a ha rfl
  intro n
  induction n with
  | zero =>
    intro a ha h
    have haeq : a = k := by omega
    subst haeq
    rw [retryFrom, hok]
  | succ n ih =>
    intro a ha h
    have halt : a < k := by omega
    obtain ⟨e, he, hre⟩ := hfail a halt
    have hamax : ¬ maxRetries ≤ a := by omega
    rw [retryFrom, he]
    simp only [hre, if_true, if_neg hamax]
    exact ih (a + 1) (by omega) (by omega)

lemma retryFrom_exhaust (work : Nat → Except E V) (retryOn : E → Bool)
    (maxRetries : Nat) (elast : E)
    (hfail : ∀ i, i ≤ maxRetries → ∃ e, work i = Except.error e ∧ retryOn e = true)
    (hlast : work maxRetries = Except.error elast) :
    ∀ a, a ≤ maxRetries →
      retryFrom work retryOn maxRetries a = (Except.error elast, maxRetries + 1) := by
  suffices H : ∀ n a, a ≤ maxRetries → maxRetries - a = n →
      retryFrom work retryOn maxRetries a = (Except.error elast, maxRetries + 1) by
    exact fun a ha => H (maxRetries - a) a ha rfl
  intro n
  induction n with
  | zero =>
    intro a ha h
    have haeq : a = maxRetries := by omega
    subst haeq
    obtain ⟨e, he, hre⟩ := hfail a (le_refl a)
    rw [retryFrom, hlast]
    have hre' : retryOn elast = true := by
      rw [hlast] at he
      cases he
      exact hre
    simp [hre']
  | succ n ih =>
    intro a ha h
    have halt : a < maxRetries := by omega
    obtain ⟨e, he, hre⟩ := hfail a (Nat.le_of_lt halt)
    have hamax : ¬ maxRetries ≤ a := by omega
    rw [retryFrom, he]
    simp only [hre, if_true, if_neg hamax]
    exact ih (a + 1) halt (by omega)

/-- C2: for every unit of work and retry policy, if the work fails with a
retryable exception on attempts `0 .. k-1` (with `k ≤ max_retries`) and
succeeds on attempt `k`, then `retry_with_backoff` makes exactly `k + 1`
calls and returns the success value; and if every attempt `0 ..
max_retries` fails with a retryable exception, it makes exactly
`max_retries + 1` calls and re-raises the failure of the last attempt. -/
theorem retry_with_backoff_spec (work : Nat → Except E V) (retryOn : E → Bool)
    (maxRetries : Nat) :
    (∀ k v, k ≤ maxRetries →
      (∀ i, i < k → ∃ e, work i = Except.error e ∧ retryOn e = true) →
      work k = Except.ok v →
      retry_with_backoff work retryOn maxRetries = (Except.ok v, k + 1)) ∧
    (∀ elast,
      (∀ i, i ≤ maxRetries → ∃ e, work i = Except.error e ∧ retryOn e = true) →
      work maxRetries = Except.error elast →
      retry_with_backoff work retryOn maxRetries = (Except.error elast, maxRetries + 1)) := by
  constructor
  · intro k v hk hfail hok
    exact retryFrom_ok work retryOn maxRetries k v hk hfail hok 0 (Nat.zero_le k)
  · intro elast hfail hlast
    exact retryFrom_exhaust work retryOn maxRetries elast hfail hlast 0 (Nat.zero_le maxRetries)

/-- Concrete unit of work for the retry witness: fails (retryably) on
attempts 0 and 1, succeeds with value 42 on every later attempt. -/
def retryWitnessWork : Nat → Except Unit Nat
  | 0 => Except.error ()
  | 1 => Except.error ()
  | _ => Except.ok 42

/-- Concrete always-failing unit of work for the retry witness. -/
def retryWitnessFailing : Nat → Except Bool Nat :=
  fun _ => Except.error true

/-- Witness for `retry_with_backoff_spec`: with `max_retries = 3`, a work
that fails twice then succeeds is called exactly 3 times and returns 42,
and an always-failing work is called exactly 4 times and re-raises. -/
theorem retry_with_backoff_spec_witness :
    retry_with_backoff retryWitnessWork (fun _ => true) 3 = (Except.ok 42, 3) ∧
    retry_with_backoff retryWitnessFailing (fun _ => true) 3 = (Except.error true, 4) := by
  constructor
  · exact (retry_with_backoff_spec retryWitnessWork (fun _ => true) 3).1 2 42
      (by omega)
      (fun i hi => by
        match i, hi with
        | 0, _ => exact ⟨(), rfl, rfl⟩
        | 1, _ => exact ⟨(), rfl, rfl⟩)
      rfl
  · exact (retry_with_backoff_spec retryWitnessFailing (fun _ => true) 3).2 true
      (fun i _ => ⟨true, rfl, rfl⟩) rfl

/-! ## Keep-last deduplication

`pandas.DataFrame.drop_duplicates(subset=[key], keep="last")` keeps, for
each key value, only the last row carrying it, preserving the relative
order of the surviving rows.  `dedupKeepLast` is that operation on a list
of rows keyed by `key` (pandas treats null keys as equal to each other,
which the `Option` key type reproduces: `none = none`).
-/

/-- Keep-last deduplication by `key`: a row survives exactly when no
later row has the same key. -/
def dedupKeepLast (key : α → κ) [DecidableEq κ] : List α → List α
  | [] => []
  | x :: xs =>
    if key x ∈ xs.map key then dedupKeepLast key xs
    else x :: dedupKeepLast key xs

lemma dedupKeepLast_sublist (key : α → κ) [DecidableEq κ] (l : List α) :
    (dedupKeepLast key l).Sublist l := by
  induction l with
  | nil => simp [dedupKeepLast]
  | cons x xs ih =>
    by_cases hx : key x ∈ xs.map key
    · simp only [dedupKeepLast, if_pos hx]
      exact ih.cons x
    · simp only [dedupKeepLast, if_neg hx]
      exact ih.cons₂ x

lemma dedupKeepLast_keys_nodup (key : α → κ) [DecidableEq κ] (l : List α) :
    ((dedupKeepLast key l).map key).Nodup := by
  induction l with
  | nil => simp [dedupKeepLast]
  | cons x xs ih =>
    by_cases hx : key x ∈ xs.map key
    · simpa only [dedupKeepLast, if_pos hx] using ih
    · simp only [dedupKeepLast, if_neg hx, List.map_cons, List.nodup_cons]
      refine ⟨fun hmem => hx ?_, ih⟩
      exact ((dedupKeepLast_sublist key xs).map key).subset hmem

lemma filter_dedupKeepLast (key : α → κ) [DecidableEq κ] (l : List α) (k : κ) :
    (dedupKeepLast key l).filter (fun a => decide (key a = k)) =
      ((l.filter (fun a => decide (key a = k))).getLast?).toList := by
  induction l with
  | nil => simp [dedupKeepLast]
  | cons x xs ih =>
    by_cases hk : key x = k
    · have hcond : decide (key x = k) = true := by simp [hk]
      by_cases hx : key x ∈ xs.map key
      · simp only [dedupKeepLast, if_pos hx, List.filter_cons, if_pos hcond, ih]
        obtain ⟨y, hy, hky⟩ := List.mem_map.mp (hk ▸ hx)
        have hyf : y ∈ xs.filter (fun a => decide (key a = k)) :=
          List.mem_filter.mpr ⟨hy, by simp [hky]⟩
        cases hf : xs.filter (fun a => decide (key a = k)) with
        | nil => rw [hf] at hyf; cases hyf
        | cons z zs => rw [List.getLast?_cons_cons]
      · have hnil : xs.filter (fun a => decide (key a = k)) = [] := by
          rw [List.filter_eq_nil_iff]
          intro a ha
          simp only [decide_eq_true_eq]
          intro hak
          exact hx (hk ▸ hak ▸ List.mem_map_of_mem key ha)
        have hnil' : (dedupKeepLast key xs).filter (fun a => decide (key a = k)) = [] := by
          rw [ih, hnil]
          rfl
        simp only [dedupKeepLast, if_neg hx, List.filter_cons, if_pos hcond, hnil, hnil']
        simp [List.getLast?]
    · have hcond : ¬ (decide (key x = k) = true) := by simp [hk]
      by_cases hx : key x ∈ xs.map key
      · simp only [dedupKeepLast, if_pos hx, List.filter_cons, if_neg hcond]
        exact ih
      · simp only [dedupKeepLast, if_neg hx, List.filter_cons, if_neg hcond]
        exact ih

lemma mem_dedupKeepLast (key : α → κ) [DecidableEq κ] (l : List α) (a : α) :
    a ∈ dedupKeepLast key l ↔
      (l.filter (fun b => decide (key b = key a))).getLast? = some a := by
  constructor
  · intro ha
    have hafe : a ∈ (dedupKeepLast key l).filter (fun b => decide (key b = key a)) :=
      List.mem_filter.mpr ⟨ha, by simp⟩
    rw [filter_dedupKeepLast] at hafe
    cases hlast : (l.filter (fun b => decide (key b = key a))).getLast? with
    | none => rw [hlast] at hafe; cases hafe
    | some b =>
      rw [hlast] at hafe
      cases hafe with
      | head => rfl
      | tail _ h => cases h
  · intro hlast
    have : a ∈ (dedupKeepLast key l).filter (fun b => decide (key b = key a)) := by
      rw [filter_dedupKeepLast, hlast]
      exact List.mem_singleton.mpr rfl
    exact (List.mem_filter.mp this).1

lemma filter_key_of_nodup (key : α → κ) [DecidableEq κ] (l : List α)
    (hnd : (l.map key).Nodup) (k : κ) :
    ((l.filter (fun a => decide (key a = k))).getLast?).toList =
      l.filter (fun a => decide (key a = k)) := by
  induction l with
  | nil => rfl
  | cons x xs ih =>
    simp only [List.map_cons, List.nodup_cons] at hnd
    by_cases hk : key x = k
    · have hnil : xs.filter (fun a => decide (key a = k)) = [] := by
        rw [List.filter_eq_nil_iff]
        intro a ha
        simp only [decide_eq_true_eq]
        intro hak
        exact hnd.1 (hk ▸ hak ▸ List.mem_map_of_mem key ha)
      simp [List.filter_cons, hk, hnil]
    · simpa [List.filter_cons, hk] using ih hnd.2

/-! ## Reconciler

Shallow embedding of the merge step of
`ETLService.update_sales_table` in
`src/src/bna_market/services/etl_service.py` (lines 77-78):

    if not existing_df.empty and "zpid" in df.columns and "zpid" in existing_df.columns:
        df = pd.concat([existing_df, df]).drop_duplicates(subset=["zpid"], keep="last")

A DataFrame is modelled as a flag recording whether the `zpid` column is
present together with the list of rows; each row carries its `zpid` value
(`none` models a null) and the rest of the row.
-/

/-- Model of a listings DataFrame around the reconciliation merge: `hasZpid`
records whether the `zpid` column exists, each row is its `zpid` value
paired with the remaining fields. -/
structure SalesFrame (K V : Type) where
  hasZpid : Bool
  rows : List (Option K × V)

/-- The reconciliation merge of `ETLService.update_sales_table`: when the
existing table is non-empty and both frames have the `zpid` column, the
concatenation existing-then-fresh is deduplicated on `zpid` keeping the
last occurrence; otherwise the fresh frame is used as-is. -/
def update_sales_merge [DecidableEq K] (existing fresh : SalesFrame K V) :
    SalesFrame K V :=
  if existing.rows.isEmpty = false ∧ fresh.hasZpid = true ∧ existing.hasZpid = true then
    { hasZpid := true,
      rows := dedupKeepLast Prod.fst (existing.rows ++ fresh.rows) }
  else fresh

/-- C1: for every previously persisted table and every freshly fetched,
validated batch (validation makes the fresh keys duplicate-free), the merge
output has each key at most once; for a key present in both inputs the
output rows for that key are exactly the fresh rows for that key (fresh
wins); and when the existing set is empty or lacks the `zpid` column the
output is the fresh frame unchanged. -/
theorem update_sales_merge_spec [DecidableEq K] (existing fresh : SalesFrame K V)
    (hvalid : (fresh.rows.map Prod.fst).Nodup) :
    ((update_sales_merge existing fresh).rows.map Prod.fst).Nodup ∧
    (∀ k : Option K,
      k ∈ existing.rows.map Prod.fst → k ∈ fresh.rows.map Prod.fst →
      (update_sales_merge existing fresh).rows.filter (fun r => decide (r.1 = k)) =
        fresh.rows.filter (fun r => decide (r.1 = k))) ∧
    ((existing.rows = [] ∨ existing.hasZpid = false) →
      update_sales_merge existing fresh = fresh) := by
  by_cases hc : existing.rows.isEmpty = false ∧ fresh.hasZpid = true ∧ existing.hasZpid = true
  · have hmerge : update_sales_merge existing fresh =
        { hasZpid := true,
          rows := dedupKeepLast Prod.fst (existing.rows ++ fresh.rows) } := by
      rw [update_sales_merge, if_pos hc]
    refine ⟨?_, ?_, ?_⟩
    · rw [hmerge]
      exact dedupKeepLast_keys_nodup Prod.fst (existing.rows ++ fresh.rows)
    · intro k _hke hkf
      rw [hmerge]
      show (dedupKeepLast Prod.fst (existing.rows ++ fresh.rows)).filter
          (fun r => decide (r.1 = k)) = _
      rw [filter_dedupKeepLast Prod.fst (existing.rows ++ fresh.rows) k,
        List.filter_append]
      obtain ⟨r, hr, hrk⟩ := List.mem_map.mp hkf
      have hrf : r ∈ fresh.rows.filter (fun r => decide (r.1 = k)) :=
        List.mem_filter.mpr ⟨hr, by simp [hrk]⟩
      have hne : fresh.rows.filter (fun r => decide (r.1 = k)) ≠ [] :=
        List.ne_nil_of_mem hrf
      rw [List.getLast?_append_of_ne_nil _ hne]
      exact filter_key_of_nodup Prod.fst fresh.rows hvalid k
    · intro hor
      exfalso
      rcases hor with h | h
      · rw [h] at hc
        simp at hc
      · rw [h] at hc
        simp at hc
  · have hmerge : update_sales_merge existing fresh = fresh := by
      rw [update_sales_merge, if_neg hc]
    refine ⟨?_, fun k _ _ => by rw [hmerge], fun _ => hmerge⟩
    rw [hmerge]
    exact hvalid

/-- Concrete existing table for the reconciliation witness: key 1 at price
300000 plus an unrelated key 2. -/
def reconWitnessExisting : SalesFrame Nat Nat :=
  { hasZpid := true, rows := [(some 1, 300000), (some 2, 450000)] }

/-- Concrete fresh batch for the reconciliation witness: key 1 re-fetched
at price 310000. -/
def reconWitnessFresh : SalesFrame Nat Nat :=
  { hasZpid := true, rows := [(some 1, 310000)] }

/-- Witness for `update_sales_merge_spec`: merging the concrete frames
leaves the merged key set duplicate-free and the colliding key 1 resolves
to the freshly fetched row. -/
theorem update_sales_merge_spec_witness :
    ((update_sales_merge reconWitnessExisting reconWitnessFresh).rows.map Prod.fst).Nodup ∧
    (update_sales_merge reconWitnessExisting reconWitnessFresh).rows.filter
        (fun r => decide (r.1 = some 1)) =
      reconWitnessFresh.rows.filter (fun r => decide (r.1 = some 1)) := by
  have h := update_sales_merge_spec reconWitnessExisting reconWitnessFresh (by decide)
  exact ⟨h.1, h.2.1 (some 1) (by decide) (by decide)⟩

/-! ## Record Validator

Shallow embedding of `validate_zillow_dataframe` in
`src/utils/validators.py` (lines 42-85).  The source, in order: returns an
empty frame untouched; raises `DataValidationError` when the `zpid` column
is absent; then `drop_duplicates(subset=["zpid"], keep="last")`, then
`dropna(subset=["zpid"])`, then — only when a `price` column exists — the
two boolean-mask filters `price > 0` and `price < 100_000_000` (a pandas
comparison with a null price is false, so null prices are dropped too).
A row carries its `zpid` (`none` models a null), its `price` (`none`
models a null/absent price) and the remaining fields.
-/

/-- One row of a Zillow listings frame: `zpid` value, `price` value, rest. -/
structure ZRow (K V : Type) where
  zpid : Option K
  price : Option Int
  rest : V
deriving DecidableEq

/-- A Zillow listings frame: column-presence flags plus the rows. -/
structure ZFrame (K V : Type) where
  hasZpidCol : Bool
  hasPriceCol : Bool
  rows : List (ZRow K V)

/-- The pandas mask `df["price"] > 0` on one row (false on a null price). -/
def priceGtZero (r : ZRow K V) : Bool :=
  match r.price with
  | some p => decide (0 < p)
  | none => false

/-- The pandas mask `df["price"] < 100_000_000` on one row (false on a
null price). -/
def priceBelowCeiling (r : ZRow K V) : Bool :=
  match r.price with
  | some p => decide (p < 100000000)
  | none => false

/-- Embeds `validate_zillow_dataframe` (src/utils/validators.py lines 56-85):
empty frames pass through, a missing `zpid` column raises, otherwise
dedup-keep-last on `zpid`, then drop null `zpid`, then the price-range
masks when a `price` column exists. -/
def validate_zillow_dataframe [DecidableEq K] (df : ZFrame K V) :
    Except String (ZFrame K V) :=
  if df.rows.isEmpty then Except.ok df
  else if df.hasZpidCol = false then
    Except.error ("DataFrame missing zpid column")
  else
    let d1 := dedupKeepLast (fun r => r.zpid) df.rows
    let d2 := d1.filter (fun r => r.zpid.isSome)
    let d3 := if df.hasPriceCol then
        (d2.filter priceGtZero).filter priceBelowCeiling
      else d2
    Except.ok { df with rows := d3 }

/-- Modelled from the claim's wording, not from the source, for
comparison: first drop records with null identifier and out-of-range
price, then deduplicate by identifier keeping the last occurrence. -/
def claimOrderClean [DecidableEq K] (hasPriceCol : Bool)
    (rows : List (ZRow K V)) : List (ZRow K V) :=
  let f1 := rows.filter (fun r => r.zpid.isSome)
  let f2 := if hasPriceCol then
      (f1.filter priceGtZero).filter priceBelowCeiling
    else f1
  dedupKeepLast (fun r => r.zpid) f2

/-- Concrete frame refuting the claimed filter-then-dedup order: two rows
share zpid 1, the earlier one valid (price 100), the later one invalid
(price 0). -/
def orderCounterFrame : ZFrame Nat Unit :=
  { hasZpidCol := true, hasPriceCol := true,
    rows := [⟨some 1, some 100, ()⟩, ⟨some 1, some 0, ()⟩] }

/-- C4 counterexample: on `orderCounterFrame` the code deduplicates first
(keeping the invalid last row) and then drops it on the price mask,
returning an empty row set, whereas the batch described by the claim
(filter first, then dedup) still contains the earlier valid row. -/
theorem validate_zillow_order_counterexample :
    validate_zillow_dataframe orderCounterFrame =
      Except.ok { orderCounterFrame with rows := [] } ∧
    claimOrderClean true orderCounterFrame.rows =
      [⟨some 1, some 100, ()⟩] := by
  constructor <;> rfl

/-- C4 amended: for every non-empty frame whose schema has the `zpid`
column, the validator succeeds and returns exactly the rows that are the
last occurrence of their zpid in the raw batch, have a non-null zpid, and
— when a price column exists — pass both price masks; the surviving key
set is duplicate-free. -/
theorem validate_zillow_clean_spec [DecidableEq K] (df : ZFrame K V)
    (h1 : df.rows ≠ []) (h2 : df.hasZpidCol = true) :
    ∃ out, validate_zillow_dataframe df = Except.ok out ∧
      out.hasZpidCol = df.hasZpidCol ∧
      out.hasPriceCol = df.hasPriceCol ∧
      (out.rows.map (fun r => r.zpid)).Nodup ∧
      (∀ r : ZRow K V, r ∈ out.rows ↔
        ((df.rows.filter (fun b => decide (b.zpid = r.zpid))).getLast? = some r ∧
         r.zpid.isSome = true ∧
         (df.hasPriceCol = true →
           priceGtZero r = true ∧ priceBelowCeiling r = true))) := by
  have hne : df.rows.isEmpty = false := by
    cases h : df.rows with
    | nil => exact absurd h h1
    | cons a as => simp [h]
  have hz : ¬ (df.hasZpidCol = false) := by simp [h2]
  refine ⟨{ df with rows :=
      (if df.hasPriceCol then
        (((dedupKeepLast (fun r : ZRow K V => r.zpid) df.rows).filter
          (fun r => r.zpid.isSome)).filter priceGtZero).filter priceBelowCeiling
      else ((dedupKeepLast (fun r : ZRow K V => r.zpid) df.rows).filter
        (fun r => r.zpid.isSome))) }, ?_, rfl, rfl, ?_, ?_⟩
  · rw [validate_zillow_dataframe, hne]
    simp only [Bool.false_eq_true, if_false, if_neg hz]
  · have hd1 : ((dedupKeepLast (fun r : ZRow K V => r.zpid) df.rows).map
        (fun r => r.zpid)).Nodup :=
      dedupKeepLast_keys_nodup _ df.rows
    by_cases hp : df.hasPriceCol = true
    · simp only [if_pos hp]
      exact hd1.sublist
        ((((List.filter_sublist _).trans
          (List.filter_sublist _)).trans (List.filter_sublist _)).map _)
    · simp only [if_neg hp]
      exact hd1.sublist ((List.filter_sublist _).map _)
  · intro r
    have hmem1 : r ∈ dedupKeepLast (fun r : ZRow K V => r.zpid) df.rows ↔
        (df.rows.filter (fun b => decide (b.zpid = r.zpid))).getLast? = some r :=
      mem_dedupKeepLast _ df.rows r
    by_cases hp : df.hasPriceCol = true
    · simp only [if_pos hp]
      simp only [List.mem_filter, hmem1, hp]
      constructor
      · rintro ⟨⟨⟨hlast, hsome⟩, hgt⟩, hlt⟩
        exact ⟨hlast, hsome, fun _ => ⟨hgt, hlt⟩⟩
      · rintro ⟨hlast, hsome, hpr⟩
        obtain ⟨hgt, hlt⟩ := hpr trivial
        exact ⟨⟨⟨hlast, hsome⟩, hgt⟩, hlt⟩
    · simp only [if_neg hp]
      simp only [List.mem_filter, hmem1]
      constructor
      · rintro ⟨hlast, hsome⟩
        exact ⟨hlast, hsome, fun hcontra => absurd hcontra hp⟩
      · rintro ⟨hlast, hsome, _⟩
        exact ⟨hlast, hsome⟩

/-- Concrete frame for the amended-validator witness: a duplicated key 5
(last occurrence valid), and a null-zpid row. -/
def validatorWitnessFrame : ZFrame Nat Unit :=
  { hasZpidCol := true, hasPriceCol := true,
    rows := [⟨some 5, some 10, ()⟩, ⟨some 5, some 20, ()⟩, ⟨none, some 30, ()⟩] }

/-- Witness for `validate_zillow_clean_spec` at `validatorWitnessFrame`. -/
theorem validate_zillow_clean_spec_witness :
    ∃ out, validate_zillow_dataframe validatorWitnessFrame = Except.ok out ∧
      out.hasZpidCol = validatorWitnessFrame.hasZpidCol ∧
      out.hasPriceCol = validatorWitnessFrame.hasPriceCol ∧
      (out.rows.map (fun r => r.zpid)).Nodup ∧
      (∀ r : ZRow Nat Unit, r ∈ out.rows ↔
        ((validatorWitnessFrame.rows.filter
            (fun b => decide (b.zpid = r.zpid))).getLast? = some r ∧
         r.zpid.isSome = true ∧
         (validatorWitnessFrame.hasPriceCol = true →
           priceGtZero r = true ∧ priceBelowCeiling r = true))) :=
  validate_zillow_clean_spec validatorWitnessFrame (by decide) rfl

/-- C8 amended: the validator raises exactly when the batch is non-empty
and its schema lacks the `zpid` column; an empty batch is returned
unchanged with no schema check, and otherwise the cleaned batch is
returned. -/
theorem validate_zillow_error_iff [DecidableEq K] (df : ZFrame K V) :
    ((∃ msg, validate_zillow_dataframe df = Except.error msg) ↔
      (df.rows ≠ [] ∧ df.hasZpidCol = false)) ∧
    (df.rows = [] → validate_zillow_dataframe df = Except.ok df) := by
  constructor
  · cases hr : df.rows with
    | nil =>
      have hempty : df.rows.isEmpty = true := by rw [hr]; rfl
      rw [validate_zillow_dataframe, hempty]
      simp
    | cons a as =>
      have hempty : df.rows.isEmpty = false := by rw [hr]; rfl
      rw [validate_zillow_dataframe, hempty]
      by_cases hz : df.hasZpidCol = false
      · simp [hz]
      · simp [hz, if_neg hz]
  · intro hr
    have hempty : df.rows.isEmpty = true := by rw [hr]; rfl
    rw [validate_zillow_dataframe, hempty]
    rfl

/-- C8 counterexample: the empty frame with no columns (`pd.DataFrame()`)
lacks the `zpid` column yet the validator returns it without raising,
against the claimed "raises if and only if the identifier column is
missing". -/
theorem validate_zillow_empty_no_raise :
    validate_zillow_dataframe (⟨false, false, []⟩ : ZFrame Nat Unit) =
      Except.ok ⟨false, false, []⟩ ∧
    (⟨false, false, []⟩ : ZFrame Nat Unit).hasZpidCol = false :=
  ⟨rfl, rfl⟩

/-- Witness for `validate_zillow_error_iff`: a non-empty frame without a
`zpid` column does raise. -/
theorem validate_zillow_error_iff_witness :
    ∃ msg, validate_zillow_dataframe
      (⟨false, true, [⟨some 1, some 5, ()⟩]⟩ : ZFrame Nat Unit) =
        Except.error msg :=
  (validate_zillow_error_iff
    (⟨false, true, [⟨some 1, some 5, ()⟩]⟩ : ZFrame Nat Unit)).1.mpr
    ⟨by decide, rfl⟩

/-! ## Paginated Listing Fetcher

Shallow embedding of the pagination loops of `fetch_zillow_listings` in
`src/pipelines/zillow_base.py` (lines 63-93) and of `forSalePipe01` in
`src/pipelines/forSale.py` (lines 36-62).  A page response is
`pages page : Except E (List R)`: `.ok props` is a decoded response whose
`props` array is `props`, `.error` is a request/decode failure (including
retry exhaustion inside `fetch_single_page`).  The result pairs the
accumulated record batch with the list of page numbers actually
requested, in order.  The Python `for page in range(1, max_pages + 1)`
allows `maxPages` iterations starting at page 1; the fuel argument counts
the iterations still allowed.  Sleeps and logging are not modelled;
`fetch_zillow_listings` validates the batch afterwards, which is outside
the pagination behaviour these claims describe.
-/

/-- The loop body of `fetch_zillow_listings`: stop when fuel (remaining
loop iterations) runs out, on a failed page, or on an empty `props`
array; otherwise extend the batch and advance to the next page. -/
def fetchPages (pages : Nat → Except E (List R)) :
    Nat → Nat → List R → List Nat → List R × List Nat
  | 0, _, acc, req => (acc, req)
  | fuel + 1, page, acc, req =>
    match pages page with
    | Except.error _ => (acc, req ++ [page])
    | Except.ok props =>
      if props.isEmpty then (acc, req ++ [page])
      else fetchPages pages fuel (page + 1) (acc ++ props) (req ++ [page])

/-- Embeds `fetch_zillow_listings(..., max_pages=maxPages)`: pagination starts at
page 1 with `maxPages` allowed iterations. -/
def fetch_zillow_listings (pages : Nat → Except E (List R)) (maxPages : Nat) :
    List R × List Nat :=
  fetchPages pages maxPages 1 [] []

/-- The loop body of `forSalePipe01`: same shape, but an empty `props`
array does NOT stop the loop — the empty list is appended and the next
page is requested. -/
def forSalePages (pages : Nat → Except E (List R)) :
    Nat → Nat → List R → List Nat → List R × List Nat
  | 0, _, acc, req => (acc, req)
  | fuel + 1, page, acc, req =>
    match pages page with
    | Except.error _ => (acc, req ++ [page])
    | Except.ok props => forSalePages pages fuel (page + 1) (acc ++ props) (req ++ [page])

/-- Embeds `forSalePipe01`: pagination starts at page 1 with its hard-coded
`max_pages_to_fetch = 20`. -/
def forSalePipe01 (pages : Nat → Except E (List R)) : List R × List Nat :=
  forSalePages pages 20 1 [] []

lemma fetchPages_empty_stop (pages : Nat → Except E (List R)) (f : Nat → List R)
    (q : Nat) (hq : pages q = Except.ok []) :
    ∀ fuel page acc req, page ≤ q → q < page + fuel →
      (∀ p, page ≤ p → p < q → pages p = Except.ok (f p) ∧ f p ≠ []) →
      fetchPages pages fuel page acc req =
        (acc ++ (List.range' page (q - page)).flatMap f,
         req ++ List.range' page (q - page + 1)) := by
  intro fuel
  induction fuel with
  | zero => intro page acc req h1 h2 _; omega
  | succ fuel ih =>
    intro page acc req h1 h2 hbefore
    by_cases hpq : page = q
    · subst hpq
      rw [fetchPages, hq]
      simp [List.range'_one]
    · have hlt : page < q := by omega
      obtain ⟨hpg, hpne⟩ := hbefore page (le_refl page) hlt
      have hnotempty : (f page).isEmpty = false := by
        cases hf : f page with
        | nil => exact absurd hf hpne
        | cons a as => rfl
      rw [fetchPages, hpg]
      dsimp only
      rw [hnotempty]
      simp only [Bool.false_eq_true, if_false]
      rw [ih (page + 1) (acc ++ f page) (req ++ [page]) (by omega) (by omega)
        (fun p hp1 hp2 => hbefore p (by omega) hp2)]
      have hr1 : List.range' page (q - page) = page :: List.range' (page + 1) (q - (page + 1)) := by
        have : q - page = (q - (page + 1)) + 1 := by omega
        rw [this, List.range'_succ]
      have hr2 : List.range' page (q - page + 1) =
          page :: List.range' (page + 1) (q - (page + 1) + 1) := by
        have : q - page + 1 = (q - (page + 1) + 1) + 1 := by omega
        rw [this, List.range'_succ]
      rw [hr1, hr2]
      simp [List.append_assoc]

lemma fetchPages_cap (pages : Nat → Except E (List R)) (f : Nat → List R) :
    ∀ fuel page acc req,
      (∀ p, page ≤ p → p < page + fuel → pages p = Except.ok (f p) ∧ f p ≠ []) →
      fetchPages pages fuel page acc req =
        (acc ++ (List.range' page fuel).flatMap f, req ++ List.range' page fuel) := by
  intro fuel
  induction fuel with
  | zero => intro page acc req _; simp [fetchPages]
  | succ fuel ih =>
    intro page acc req hall
    obtain ⟨hpg, hpne⟩ := hall page (le_refl page) (by omega)
    have hnotempty : (f page).isEmpty = false := by
      cases hf : f page with
      | nil => exact absurd hf hpne
      | cons a as => rfl
    rw [fetchPages, hpg]
    dsimp only
    rw [hnotempty]
    simp only [Bool.false_eq_true, if_false]
    rw [ih (page + 1) (acc ++ f page) (req ++ [page])
      (fun p hp1 hp2 => hall p (by omega) (by omega))]
    rw [List.range'_succ]
    simp [List.append_assoc]

/-- C3 amended (the part that holds, for `fetch_zillow_listings`): if
pages `1 .. q-1` return non-empty record arrays and page `q ≤ maxPages`
returns an empty array, exactly pages `1 .. q` are requested and the batch
is the concatenation of the non-empty pages; if every page up to the cap
is non-empty, exactly pages `1 .. maxPages` are requested.  No request is
issued beyond the stopping point in either case. -/
theorem fetch_zillow_listings_pagination (pages : Nat → Except E (List R))
    (maxPages : Nat) (f : Nat → List R) :
    (∀ q, 1 ≤ q → q ≤ maxPages →
      (∀ p, 1 ≤ p → p < q → pages p = Except.ok (f p) ∧ f p ≠ []) →
      pages q = Except.ok [] →
      fetch_zillow_listings pages maxPages =
        ((List.range' 1 (q - 1)).flatMap f, List.range' 1 q)) ∧
    ((∀ p, 1 ≤ p → p ≤ maxPages → pages p = Except.ok (f p) ∧ f p ≠ []) →
      fetch_zillow_listings pages maxPages =
        ((List.range' 1 maxPages).flatMap f, List.range' 1 maxPages)) := by
  constructor
  · intro q hq1 hq2 hbefore hq
    rw [fetch_zillow_listings,
      fetchPages_empty_stop pages f q hq maxPages 1 [] [] hq1 (by omega) hbefore]
    have : q - 1 + 1 = q := by omega
    rw [this]
    simp
  · intro hall
    rw [fetch_zillow_listings,
      fetchPages_cap pages f maxPages 1 [] [] (fun p hp1 hp2 => hall p hp1 (by omega))]
    simp

/-- Page responses of the 20/20/0 scenario: pages 1 and 2 return 20
records each, every later page returns an empty array. -/
def scenarioPages : Nat → Except Unit (List Nat) :=
  fun p => if p ≤ 2 then Except.ok (List.replicate 20 0) else Except.ok []

/-- Record arrays of the 20/20/0 scenario pages. -/
def scenarioRecords : Nat → List Nat :=
  fun _ => List.replicate 20 0

/-- Witness for `fetch_zillow_listings_pagination`: under the 20/20/0
scenario the fetcher returns a 40-record batch and requests exactly pages
1, 2, 3. -/
theorem fetch_zillow_listings_pagination_witness :
    fetch_zillow_listings scenarioPages 20 = (List.replicate 40 0, [1, 2, 3]) := by
  have h := (fetch_zillow_listings_pagination scenarioPages 20 scenarioRecords).1 3
    (by omega) (by omega)
    (fun p hp1 hp2 => by
      match p, hp1, hp2 with
      | 1, _, _ => exact ⟨rfl, by decide⟩
      | 2, _, _ => exact ⟨rfl, by decide⟩)
    rfl
  rw [h]
  decide

/-- C3 counterexample: under the same 20/20/0 responses, `forSalePipe01`
does not stop at the first empty page — it requests all 20 pages (page 4
in particular is requested, beyond the first empty page 3), while
accumulating the same 40 records. -/
theorem forSalePipe01_counterexample :
    (forSalePipe01 scenarioPages).1.length = 40 ∧
    (forSalePipe01 scenarioPages).2.length = 20 ∧
    4 ∈ (forSalePipe01 scenarioPages).2 := by
  refine ⟨?_, ?_, ?_⟩ <;> decide

/-! ## Multi-Series Metrics Fetcher

Shallow embedding of `fetch_fred_metrics` in
`src/bna_market/pipelines/fred_metrics.py` (lines 58-161).  A series fetch
(`fetch_fred_series`, retry included) is `fetch seriesId : Except E (List
(String × Option V))`: each raw observation is a date string (after
`strftime`) paired with a value, `none` modelling a NaN value in the
series.  The per-series `try/except Exception: continue` appends the
tagged frame on success and the metric name to `failed_series` on any
failure.  The severity test `failure_count > total_count * 0.5` is exact
integer arithmetic `2 * failureCount > totalCount` (for `n < 2^53`,
`n * 0.5` is an exact float).  `validate_fred_dataframe`
(src/utils/validators.py lines 88-132) drops rows with a null date or
value; dates built by this pipeline are always present strings, so only
null values are dropped, and its required-column check always passes on
frames this pipeline builds.  Logging is modelled as the emitted severity
record in the output.
-/

/-- One tagged FRED observation: date, value (`none` models NaN), metric
name and series identifier. -/
structure FredObs (V : Type) where
  date : String
  value : Option V
  metric : String
  seriesId : String
deriving DecidableEq

/-- Log severities the metrics fetcher can emit for partial failure. -/
inductive Severity
  | critical
  | warning
deriving DecidableEq

/-- Result of one metrics-fetcher run: the collected observations and the
partial-failure log (severity plus the failed metric names), if any. -/
structure FredOutput (V : Type) where
  observations : List (FredObs V)
  log : Option (Severity × List String)
deriving DecidableEq

/-- The per-series loop of `fetch_fred_metrics`: returns the list of
successful per-series frames (in order) and the failed metric names (in
order). -/
def collectSeries (fetch : String → Except E (List (String × Option V))) :
    List (String × String) → List (List (FredObs V)) × List String
  | [] => ([], [])
  | ms :: rest =>
    match fetch ms.2 with
    | Except.ok raws =>
      ((raws.map (fun rv => ⟨rv.1, rv.2, ms.1, ms.2⟩)) ::
        (collectSeries fetch rest).1, (collectSeries fetch rest).2)
    | Except.error _ =>
      ((collectSeries fetch rest).1, ms.1 :: (collectSeries fetch rest).2)

/-- Embeds `validate_fred_dataframe` on a frame whose dates are present strings:
`dropna(subset=["date", "value"])` keeps observations with a value. -/
def validate_fred_dataframe (obs : List (FredObs V)) : List (FredObs V) :=
  obs.filter (fun o => o.value.isSome)

/-- Embeds `fetch_fred_metrics`: raise when the API key is absent; otherwise
attempt every configured series, compute the failure count, emit the
threshold-based severity log, and return the validated concatenation of
the successful frames (an empty frame when nothing was collected). -/
def fetch_fred_metrics (apiKey : String)
    (fetch : String → Except E (List (String × Option V)))
    (seriesList : List (String × String)) : Except String (FredOutput V) :=
  if apiKey = "" then Except.error ("FRED_API_KEY not found in environment")
  else
    let allData := (collectSeries fetch seriesList).1
    let failedSeries := (collectSeries fetch seriesList).2
    let totalCount := seriesList.length
    let failureCount := totalCount - allData.length
    let log : Option (Severity × List String) :=
      if 2 * failureCount > totalCount then some (Severity.critical, failedSeries)
      else if 0 < failureCount then some (Severity.warning, failedSeries)
      else none
    let observations :=
      if allData.isEmpty then []
      else validate_fred_dataframe allData.flatten
    Except.ok { observations := observations, log := log }

lemma collectSeries_length (fetch : String → Except E (List (String × Option V)))
    (ss : List (String × String)) :
    (collectSeries fetch ss).1.length + (collectSeries fetch ss).2.length = ss.length := by
  induction ss with
  | nil => rfl
  | cons ms rest ih =>
    rw [collectSeries]
    cases h : fetch ms.2 with
    | ok raws => simp only [List.length_cons]; omega
    | error e => simp only [List.length_cons]; omega

lemma collectSeries_all_fail (fetch : String → Except E (List (String × Option V)))
    (ss : List (String × String))
    (hfail : ∀ ms ∈ ss, ∃ e, fetch ms.2 = Except.error e) :
    (collectSeries fetch ss).1 = ([] : List (List (FredObs V))) := by
  induction ss with
  | nil => rfl
  | cons ms rest ih =>
    obtain ⟨e, he⟩ := hfail ms (List.mem_cons_self ms rest)
    rw [collectSeries, he]
    exact ih (fun x hx => hfail x (List.mem_cons_of_mem ms hx))

lemma fetch_fred_metrics_ok (apiKey : String) (hk : ¬ apiKey = "")
    (fetch : String → Except E (List (String × Option V)))
    (ss : List (String × String)) :
    fetch_fred_metrics apiKey fetch ss = Except.ok
      { observations :=
          validate_fred_dataframe (collectSeries fetch ss).1.flatten,
        log :=
          if 2 * (ss.length - (collectSeries fetch ss).1.length) > ss.length then
            some (Severity.critical, (collectSeries fetch ss).2)
          else if 0 < ss.length - (collectSeries fetch ss).1.length then
            some (Severity.warning, (collectSeries fetch ss).2)
          else none } := by
  rw [fetch_fred_metrics, if_neg hk]
  cases h : (collectSeries fetch ss).1 with
  | nil => simp [h, validate_fred_dataframe]
  | cons d ds => simp [h]

/-- C5: with the credential present, the metrics fetcher returns one
output whose log is critical-severity naming all failed series when more
than half the series failed, warning-severity naming them when between
zero (exclusive) and half (inclusive) failed, and absent when none
failed; the returned observations are the validated collection from the
successful series, equal to the collected observations whenever none of
them carries a null value. -/
theorem fetch_fred_metrics_severity (apiKey : String) (hk : apiKey ≠ "")
    (fetch : String → Except E (List (String × Option V)))
    (ss : List (String × String)) :
    ∃ out, fetch_fred_metrics apiKey fetch ss = Except.ok out ∧
      (2 * (collectSeries fetch ss).2.length > ss.length →
        out.log = some (Severity.critical, (collectSeries fetch ss).2)) ∧
      (0 < (collectSeries fetch ss).2.length →
        2 * (collectSeries fetch ss).2.length ≤ ss.length →
        out.log = some (Severity.warning, (collectSeries fetch ss).2)) ∧
      ((collectSeries fetch ss).2.length = 0 → out.log = none) ∧
      out.observations = validate_fred_dataframe (collectSeries fetch ss).1.flatten ∧
      ((∀ o ∈ (collectSeries fetch ss).1.flatten, o.value.isSome = true) →
        out.observations = (collectSeries fetch ss).1.flatten) := by
  have hlen := collectSeries_length fetch ss
  have hfc : ss.length - (collectSeries fetch ss).1.length =
      (collectSeries fetch ss).2.length := by omega
  refine ⟨_, fetch_fred_metrics_ok apiKey hk fetch ss, ?_, ?_, ?_, rfl, ?_⟩
  · intro hgt
    rw [hfc]
    simp only [if_pos hgt]
  · intro hpos hle
    rw [hfc]
    rw [if_neg (by omega), if_pos hpos]
  · intro hzero
    rw [hfc]
    rw [if_neg (by omega), if_neg (by omega)]
  · intro hall
    exact List.filter_eq_self.mpr hall

/-- Configured series of the partial-failure witness: eight series, the
last three of which fail. -/
def fredSeriesW : List (String × String) :=
  [("m1", "s1"), ("m2", "s2"), ("m3", "s3"), ("m4", "s4"),
   ("m5", "s5"), ("m6", "s6"), ("m7", "s7"), ("m8", "s8")]

/-- Series fetcher of the partial-failure witness: series s6, s7, s8 fail,
the rest return one observation. -/
def fredFetchW : String → Except Unit (List (String × Option Nat)) :=
  fun sid =>
    if sid = "s6" ∨ sid = "s7" ∨ sid = "s8" then Except.error ()
    else Except.ok [("2024-01-01", some 1)]

/-- Witness for `fetch_fred_metrics_severity`: 3 of 8 series failing logs
at warning severity naming the failed series and returns the 5 successful
series' observations. -/
theorem fetch_fred_metrics_severity_witness :
    ∃ out, fetch_fred_metrics ("key") fredFetchW fredSeriesW = Except.ok out ∧
      out.log = some (Severity.warning, ["m6", "m7", "m8"]) ∧
      out.observations.length = 5 := by
  obtain ⟨out, hout, _, hwarn, _, hobs, _⟩ :=
    fetch_fred_metrics_severity ("key") (by decide) fredFetchW fredSeriesW
  refine ⟨out, hout, ?_, ?_⟩
  · rw [hwarn (by decide) (by decide)]
    decide
  · rw [hobs]
    decide

/-- C9: the metrics fetcher raises exactly when the API credential is
absent — before any series is attempted, so independently of the series
outcomes — and with the credential present it never raises, whatever the
per-series failures, returning the observations of the successful series
(empty when every series failed). -/
theorem fetch_fred_metrics_credentials (apiKey : String)
    (fetch : String → Except E (List (String × Option V)))
    (ss : List (String × String)) :
    (apiKey = "" →
      fetch_fred_metrics apiKey fetch ss =
        Except.error ("FRED_API_KEY not found in environment")) ∧
    (apiKey ≠ "" →
      ∃ out, fetch_fred_metrics apiKey fetch ss = Except.ok out ∧
        out.observations =
          validate_fred_dataframe (collectSeries fetch ss).1.flatten ∧
        ((∀ ms ∈ ss, ∃ e, fetch ms.2 = Except.error e) →
          out.observations = [])) := by
  constructor
  · intro hk
    rw [fetch_fred_metrics, if_pos hk]
  · intro hk
    refine ⟨_, fetch_fred_metrics_ok apiKey hk fetch ss, rfl, ?_⟩
    intro hfail
    rw [collectSeries_all_fail fetch ss hfail]
    rfl

/-- Always-failing series fetcher for the credentials witness. -/
def fredFetchAllFail : String → Except Unit (List (String × Option Nat)) :=
  fun _ => Except.error ()

/-- Witness for `fetch_fred_metrics_credentials`: an empty credential
raises regardless of series outcomes, and with a credential present a run
where every series fails still returns an (empty) result. -/
theorem fetch_fred_metrics_credentials_witness :
    fetch_fred_metrics ("") fredFetchAllFail fredSeriesW =
      Except.error ("FRED_API_KEY not found in environment") ∧
    ∃ out, fetch_fred_metrics ("key") fredFetchAllFail fredSeriesW = Except.ok out ∧
      out.observations = [] := by
  constructor
  · exact (fetch_fred_metrics_credentials ("") fredFetchAllFail fredSeriesW).1 rfl
  · obtain ⟨out, hout, _, hempty⟩ :=
      (fetch_fred_metrics_credentials ("key") fredFetchAllFail fredSeriesW).2 (by decide)
    exact ⟨out, hout, hempty (fun ms _ => ⟨(), rfl⟩)⟩

/-! ## Persistence Gateway: transactional scope

Shallow embedding of the `get_db_connection` context managers in
`src/utils/database.py` (lines 17-42) and
`src/bna_market/utils/database.py` (lines 94-145).  Both wrap the body in
`try: yield conn; conn.commit() / except: conn.rollback(); raise /
finally: conn.close()`.  The body run on the connection is modelled as a
sequence of statements (`deleteAll`, `insert`, and `fail` for an exception
raised mid-body); statements act on a transaction-local view of the table
and become visible in the stored table only on commit, which is the
commit/rollback semantics of the SQLite and PostgreSQL connections the
source uses.  A full-table replace (`to_sql(..., if_exists="replace")`)
issues a delete of all rows followed by one insert per row.
-/

/-- One statement executed on the connection inside the scope. -/
inductive TxOp (Row : Type)
  | deleteAll
  | insert (r : Row)
  | fail

/-- Run the body statements on the transaction-local view `cur`; returns
the view reached and whether the body completed without raising. -/
def applyOps : List Row → List (TxOp Row) → List Row × Bool
  | cur, [] => (cur, true)
  | _, TxOp.deleteAll :: rest => applyOps [] rest
  | cur, TxOp.insert r :: rest => applyOps (cur ++ [r]) rest
  | cur, TxOp.fail :: _ => (cur, false)

/-- Outcome of one `with get_db_connection(...)` scope: whether the scope
completed (`ok = false` models the re-raised exception), the table
contents visible afterwards, and the connection bookkeeping. -/
structure TxRunResult (Row : Type) where
  ok : Bool
  table : List Row
  committed : Bool
  rolledBack : Bool
  closed : Bool
deriving DecidableEq

/-- Semantics of the `get_db_connection` context manager: commit the body's view
on success, roll back (table unchanged) and re-raise on failure, close the
connection in every case. -/
def get_db_connection_scope (db : List Row) (ops : List (TxOp Row)) :
    TxRunResult Row :=
  let res := applyOps db ops
  if res.2 then
    { ok := true, table := res.1, committed := true,
      rolledBack := false, closed := true }
  else
    { ok := false, table := db, committed := false,
      rolledBack := true, closed := true }

/-- The statements issued by a full-table replace writing `rows`, raising
after `k` staged rows when `failAfter = some k`. -/
def replaceOps (rows : List Row) (failAfter : Option Nat) : List (TxOp Row) :=
  match failAfter with
  | none => TxOp.deleteAll :: rows.map TxOp.insert
  | some k => TxOp.deleteAll :: ((rows.take k).map TxOp.insert ++ [TxOp.fail])

lemma applyOps_inserts (rows : List Row) :
    ∀ cur, applyOps cur (rows.map TxOp.insert) = (cur ++ rows, true) := by
  induction rows with
  | nil => intro cur; simp [applyOps]
  | cons r rest ih =>
    intro cur
    rw [List.map_cons, applyOps, ih]
    simp

lemma applyOps_inserts_fail (rows : List Row) :
    ∀ cur, applyOps cur (rows.map TxOp.insert ++ [TxOp.fail]) =
      (cur ++ rows, false) := by
  induction rows with
  | nil => intro cur; simp [applyOps]
  | cons r rest ih =>
    intro cur
    rw [List.map_cons, List.cons_append, applyOps, ih]
    simp

/-- C6: a full-table replace inside `get_db_connection` is atomic — the
write is committed iff the body succeeds, a failure anywhere in the body
rolls back and re-raises leaving the stored table exactly as it was, the
connection is closed in every case, and the table afterwards is either
the complete old contents or the complete new contents, never a partial
write. -/
theorem get_db_connection_atomic (db rows : List Row) (failAfter : Option Nat) :
    (get_db_connection_scope db (replaceOps rows failAfter)).closed = true ∧
    ((get_db_connection_scope db (replaceOps rows failAfter)).committed = true ↔
      failAfter = none) ∧
    ((get_db_connection_scope db (replaceOps rows failAfter)).ok = true ↔
      (get_db_connection_scope db (replaceOps rows failAfter)).committed = true) ∧
    (failAfter = none →
      (get_db_connection_scope db (replaceOps rows failAfter)).table = rows ∧
      (get_db_connection_scope db (replaceOps rows failAfter)).rolledBack = false) ∧
    (∀ k, failAfter = some k →
      (get_db_connection_scope db (replaceOps rows failAfter)).table = db ∧
      (get_db_connection_scope db (replaceOps rows failAfter)).rolledBack = true) ∧
    ((get_db_connection_scope db (replaceOps rows failAfter)).table = db ∨
      (get_db_connection_scope db (replaceOps rows failAfter)).table = rows) := by
  cases failAfter with
  | none =>
    have hrun : get_db_connection_scope db (replaceOps rows none) =
        { ok := true, table := rows, committed := true,
          rolledBack := false, closed := true } := by
      rw [replaceOps, get_db_connection_scope]
      rw [show applyOps db (TxOp.deleteAll :: rows.map TxOp.insert) =
        (rows, true) by rw [applyOps, applyOps_inserts]; simp]
      rfl
    rw [hrun]
    refine ⟨rfl, by simp, by simp, fun _ => ⟨rfl, rfl⟩, ?_, Or.inr rfl⟩
    intro k hk
    cases hk
  | some k =>
    have hrun : get_db_connection_scope db (replaceOps rows (some k)) =
        { ok := false, table := db, committed := false,
          rolledBack := true, closed := true } := by
      rw [replaceOps, get_db_connection_scope]
      rw [show applyOps db
        (TxOp.deleteAll :: ((rows.take k).map TxOp.insert ++ [TxOp.fail])) =
        (rows.take k, false) by rw [applyOps, applyOps_inserts_fail]; simp]
      rfl
    rw [hrun]
    refine ⟨rfl, by simp, by simp, ?_, fun _ _ => ⟨rfl, rfl⟩, Or.inl rfl⟩
    intro hk
    cases hk

/-- Witness for `get_db_connection_atomic`: replacing `[1, 2]` by
`[3, 4]` commits the full new contents on success and leaves `[1, 2]`
untouched when the body fails after staging one row. -/
theorem get_db_connection_atomic_witness :
    (get_db_connection_scope [1, 2] (replaceOps [3, 4] none)).table = [3, 4] ∧
    (get_db_connection_scope [1, 2] (replaceOps [3, 4] (some 1))).table = [1, 2] ∧
    (get_db_connection_scope [1, 2] (replaceOps [3, 4] (some 1))).closed = true := by
  refine ⟨((get_db_connection_atomic [1, 2] [3, 4] none).2.2.2.1 rfl).1,
    ((get_db_connection_atomic [1, 2] [3, 4] (some 1)).2.2.2.2.1 1 rfl).1,
    (get_db_connection_atomic [1, 2] [3, 4] (some 1)).1⟩

/-! ## Persistence Gateway: table-name whitelist

Shallow embedding of `VALID_TABLE_NAMES`, `read_table_safely` and
`upsert_dataframe` in `src/bna_market/utils/database.py` (lines 148-248)
and of the legacy `read_table_safely` in `src/utils/database.py` (lines
45-68).  The modelled result is the rejection raised, or the query text
constructed, which is what the claim is about; the actual query execution
is not modelled.
-/

/-- Python `str.lower()` on the ASCII table names this code handles:
lowercase every character. -/
def pyLower (s : String) : String :=
  String.mk (s.data.map Char.toLower)

/-- The fixed whitelist `VALID_TABLE_NAMES`. -/
def VALID_TABLE_NAMES : List String :=
  ["bna_forsale", "bna_rentals", "bna_fred_metrics"]

/-- Embeds `read_table_safely` of `src/bna_market/utils/database.py`: lowercase
the name, raise `ValueError` when it is not whitelisted, only then build
the SELECT query. -/
def read_table_safely (tableName : String) : Except String String :=
  let lower := pyLower tableName
  if lower ∉ VALID_TABLE_NAMES then
    Except.error ("Invalid table name " ++ tableName)
  else
    Except.ok ("SELECT * FROM " ++ lower)

/-- Embeds `read_table_safely` of the legacy `src/utils/database.py`: builds the
SELECT query for any table name, with no whitelist validation. -/
def read_table_safely_legacy (tableName : String) : String :=
  "SELECT * FROM " ++ tableName

/-- Outcome of `upsert_dataframe`: skipped on empty input, rejected, or
upserted into the (lowercased) table with the comma-joined conflict
target. -/
inductive UpsertResult
  | skippedEmpty
  | rejected (msg : String)
  | upserted (table : String) (conflictTarget : String)
deriving DecidableEq

/-- Embeds `upsert_dataframe` of `src/bna_market/utils/database.py`: return
early on an empty frame (before any check), then lowercase and reject
non-whitelisted names, then perform the keyed upsert. -/
def upsert_dataframe (rows : List ρ) (tableName : String)
    (uniqueColumns : List String) : UpsertResult :=
  if rows.isEmpty then UpsertResult.skippedEmpty
  else
    let lower := pyLower tableName
    if lower ∉ VALID_TABLE_NAMES then
      UpsertResult.rejected ("Invalid table name " ++ tableName)
    else
      UpsertResult.upserted lower (String.intercalate (",") uniqueColumns)

/-- C7 counterexample: the legacy `read_table_safely` constructs its query
for a table name outside the whitelist, with no rejection — against the
claim that every Persistence Gateway entry point rejects non-whitelisted
names before constructing any query. -/
theorem read_table_safely_legacy_counterexample :
    read_table_safely_legacy ("users") = "SELECT * FROM users" ∧
    pyLower ("users") ∉ VALID_TABLE_NAMES := by
  constructor
  · rfl
  · decide

/-- C7 amended: the `bna_market` gateway functions — `read_table_safely`,
and `upsert_dataframe` on non-empty input — reject a table name exactly
when its lowercased form is outside the whitelist, and build a query only
for whitelisted names; the legacy reader has no such check. -/
theorem persistence_gateway_whitelist (tableName : String) (rows : List ρ)
    (uniqueColumns : List String) (hrows : rows ≠ []) :
    ((∃ msg, read_table_safely tableName = Except.error msg) ↔
      pyLower tableName ∉ VALID_TABLE_NAMES) ∧
    (∀ q, read_table_safely tableName = Except.ok q →
      pyLower tableName ∈ VALID_TABLE_NAMES ∧
      q = "SELECT * FROM " ++ pyLower tableName) ∧
    ((∃ msg, upsert_dataframe rows tableName uniqueColumns =
        UpsertResult.rejected msg) ↔
      pyLower tableName ∉ VALID_TABLE_NAMES) ∧
    (∀ t c, upsert_dataframe rows tableName uniqueColumns =
        UpsertResult.upserted t c →
      pyLower tableName ∈ VALID_TABLE_NAMES) := by
  have hne : rows.isEmpty = false := by
    cases h : rows with
    | nil => exact absurd h hrows
    | cons a as => rfl
  by_cases hmem : pyLower tableName ∈ VALID_TABLE_NAMES
  · refine ⟨?_, ?_, ?_, fun t c _ => hmem⟩
    · rw [read_table_safely]
      simp [hmem]
    · intro q hq
      rw [read_table_safely] at hq
      simp only [hmem, not_true_eq_false, if_neg, ite_false, not_false_eq_true,
        if_pos] at hq
      cases hq
      exact ⟨hmem, rfl⟩
    · rw [upsert_dataframe, hne]
      simp [hmem]
  · refine ⟨?_, ?_, ?_, ?_⟩
    · rw [read_table_safely]
      simp [hmem]
    · intro q hq
      rw [read_table_safely] at hq
      simp [hmem] at hq
    · rw [upsert_dataframe, hne]
      simp [hmem]
    · intro t c hq
      rw [upsert_dataframe, hne] at hq
      simp [hmem] at hq

/-- Witness for `persistence_gateway_whitelist`: the table name `users`
is rejected by both gateway functions on non-empty input, and the
uppercase spelling of a whitelisted table is accepted after lowercasing. -/
theorem persistence_gateway_whitelist_witness :
    (∃ msg, read_table_safely ("users") = Except.error msg) ∧
    (∃ msg, upsert_dataframe [()] ("users") ["zpid"] = UpsertResult.rejected msg) ∧
    (pyLower ("BNA_FORSALE") ∈ VALID_TABLE_NAMES) := by
  have h := persistence_gateway_whitelist ("users") [()] ["zpid"]
    (List.cons_ne_nil () [])
  refine ⟨h.1.mpr (by decide), h.2.2.1.mpr (by decide), by decide⟩

/-! ## Unit parser

Shallow embedding of `parse_units` in `src/bna_market/pipelines/rental.py`
(lines 21-57).  Python values are the inductive `PyVal`.  The two library
decoders are parameters: `literalEval s = some v` models
`ast.literal_eval(s)` returning `v`, `none` models it raising one of the
caught `(ValueError, SyntaxError)`; `jsonLoads` likewise models
`json.loads` with its caught `(ValueError, json.JSONDecodeError)`.  The
string handed to `json.loads` is first transformed exactly as the source
does: `.replace("False", "false").replace("True", "true")` then
`re.sub` of every single-quote character by a double quote.
-/

/-- A Python value as `parse_units` can receive or produce it. -/
inductive PyVal
  | pynone
  | pybool (b : Bool)
  | pyint (n : Int)
  | pystr (s : String)
  | pylist (xs : List PyVal)
  | pydict (entries : List (PyVal × PyVal))

/-- Test `isinstance(v, list)`. -/
def isPyList : PyVal → Bool
  | PyVal.pylist _ => true
  | _ => false

/-- Test `isinstance(v, str)`. -/
def isPyStr : PyVal → Bool
  | PyVal.pystr _ => true
  | _ => false

/-- The single-quote character, written by code point. -/
def singleQuote : String := String.singleton (Char.ofNat 39)

/-- Core of Python `str.replace`: scan left to right, replace each
non-overlapping occurrence of `pat`, resume after the replaced segment.
The fuel argument (the input's length) only makes the recursion
structural; it never runs out for the non-empty patterns `parse_units`
uses. -/
def replaceFuel (pat sub : List Char) : Nat → List Char → List Char
  | 0, l => l
  | _, [] => []
  | fuel + 1, c :: rest =>
    if pat ≠ [] ∧ pat.isPrefixOf (c :: rest) then
      sub ++ replaceFuel pat sub fuel (rest.drop (pat.length - 1))
    else
      c :: replaceFuel pat sub fuel rest

/-- Python `str.replace(pat, sub)` (and `re.sub` for a literal
single-character pattern). -/
def strReplace (s pat sub : String) : String :=
  String.mk (replaceFuel pat.data sub.data s.data.length s.data)

/-- The string transformation applied before the JSON fallback:
boolean-spelling replacement then quote-style replacement, exactly as in
the source: `.replace("False", "false").replace("True", "true")` then
substituting every single quote by a double quote. -/
def jsonTransform (s : String) : String :=
  strReplace (strReplace (strReplace s ("False") ("false")) ("True") ("true"))
    singleQuote ("\"")

/-- Embeds `parse_units`: lists pass through; non-list non-string values yield
`None`; strings go through `ast.literal_eval` first (a successful
non-list result yields `None` at once), and on a caught literal-eval
failure through `json.loads` of the transformed string, any failure or
non-list decode yielding `None`. -/
def parse_units (literalEval jsonLoads : String → Option PyVal) :
    PyVal → Option (List PyVal)
  | PyVal.pylist xs => some xs
  | PyVal.pystr s =>
    (match literalEval s with
     | some (PyVal.pylist xs) => some xs
     | some _ => none
     | none =>
       match jsonLoads (jsonTransform s) with
       | some (PyVal.pylist xs) => some xs
       | _ => none)
  | _ => none

/-- C10: `parse_units` always terminates with a list or `None`: lists are
returned unchanged; non-list non-string inputs yield `None`; a string
whose literal evaluation is a list yields that list; on literal-eval
failure a JSON decode (of the boolean/quote-transformed string) to a list
yields that list; and when neither strategy produces a list the result is
`None`. -/
theorem parse_units_spec (literalEval jsonLoads : String → Option PyVal)
    (x : PyVal) :
    (parse_units literalEval jsonLoads x = none ∨
      ∃ xs, parse_units literalEval jsonLoads x = some xs) ∧
    (∀ xs, x = PyVal.pylist xs → parse_units literalEval jsonLoads x = some xs) ∧
    (isPyList x = false → isPyStr x = false →
      parse_units literalEval jsonLoads x = none) ∧
    (∀ s, x = PyVal.pystr s →
      (∀ xs, literalEval s = some (PyVal.pylist xs) →
        parse_units literalEval jsonLoads x = some xs) ∧
      (literalEval s = none →
        ∀ xs, jsonLoads (jsonTransform s) = some (PyVal.pylist xs) →
          parse_units literalEval jsonLoads x = some xs) ∧
      ((∀ v, literalEval s = some v → isPyList v = false) →
       (∀ v, jsonLoads (jsonTransform s) = some v → isPyList v = false) →
        parse_units literalEval jsonLoads x = none)) := by
  refine ⟨?_, ?_, ?_, ?_⟩
  · cases h : parse_units literalEval jsonLoads x with
    | none => exact Or.inl rfl
    | some xs => exact Or.inr ⟨xs, rfl⟩
  · intro xs hx
    subst hx
    rfl
  · intro hl hs
    cases x with
    | pylist xs => simp [isPyList] at hl
    | pystr s => simp [isPyStr] at hs
    | pynone => rfl
    | pybool b => rfl
    | pyint n => rfl
    | pydict e => rfl
  · intro s hx
    subst hx
    refine ⟨?_, ?_, ?_⟩
    · intro xs hle
      rw [parse_units, hle]
    · intro hle xs hjs
      rw [parse_units, hle, hjs]
    · intro hle hjs
      cases h : literalEval s with
      | some v =>
        rw [parse_units, h]
        cases v with
        | pylist xs => exact absurd (hle _ h) (by simp [isPyList])
        | pynone => rfl
        | pybool b => rfl
        | pyint n => rfl
        | pystr t => rfl
        | pydict e => rfl
      | none =>
        cases hj : jsonLoads (jsonTransform s) with
        | some v =>
          rw [parse_units, h, hj]
          cases v with
          | pylist xs => exact absurd (hjs _ hj) (by simp [isPyList])
          | pynone => rfl
          | pybool b => rfl
          | pyint n => rfl
          | pystr t => rfl
          | pydict e => rfl
        | none =>
          rw [parse_units, h, hj]

/-- Concrete literal-eval model for the parser witness: decodes `[1]` to
a one-element list and `42` to a non-list value, fails elsewhere. -/
def litEvalW : String → Option PyVal :=
  fun s =>
    if s = "[1]" then some (PyVal.pylist [PyVal.pyint 1])
    else if s = "42" then some (PyVal.pyint 42)
    else none

/-- Concrete JSON model for the parser witness: decodes `[true]` to a
one-element list, fails elsewhere. -/
def jsonLoadsW : String → Option PyVal :=
  fun s =>
    if s = "[true]" then some (PyVal.pylist [PyVal.pybool true])
    else none

/-- Witness for `parse_units_spec`: a list passes through, a non-list
non-string yields `None`, a literal-evaluable string yields its list, and
a string neither strategy can decode to a list yields `None`. -/
theorem parse_units_spec_witness :
    parse_units litEvalW jsonLoadsW (PyVal.pylist [PyVal.pyint 3]) =
      some [PyVal.pyint 3] ∧
    parse_units litEvalW jsonLoadsW (PyVal.pyint 7) = none ∧
    parse_units litEvalW jsonLoadsW (PyVal.pystr ("[1]")) =
      some [PyVal.pyint 1] ∧
    parse_units litEvalW jsonLoadsW (PyVal.pystr ("blah")) = none := by
  refine ⟨?_, ?_, ?_, ?_⟩
  · exact (parse_units_spec litEvalW jsonLoadsW
      (PyVal.pylist [PyVal.pyint 3])).2.1 [PyVal.pyint 3] rfl
  · exact (parse_units_spec litEvalW jsonLoadsW (PyVal.pyint 7)).2.2.1 rfl rfl
  · exact (((parse_units_spec litEvalW jsonLoadsW
      (PyVal.pystr ("[1]"))).2.2.2 ("[1]") rfl).1 [PyVal.pyint 1] rfl)
  · refine (((parse_units_spec litEvalW jsonLoadsW
      (PyVal.pystr ("blah"))).2.2.2 ("blah") rfl).2.2 ?_ ?_)
    · intro v hv
      rw [show litEvalW ("blah") = none from rfl] at hv
      exact Option.noConfusion hv
    · intro v hv
      rw [show jsonLoadsW (jsonTransform ("blah")) = none from rfl] at hv
      exact Option.noConfusion hv

end BnaMarket
